import Mathlib

/-!
Verification development for `tools/convert_imageset_multilabels.cpp`:
a one-shot tool that reads a manifest of `path label1 label2 label3` lines
and writes two key-value stores (payload datums and label datums) with
batched transactional commits.

The C++ source is shallowly embedded below.  Pure fragments become Lean
functions; the two store-writing loops become explicit state passing
(`PassSt`) threaded through `passGo`; fatal conditions (`CHECK_EQ`
failures, uncaught `std::out_of_range`, out-of-bounds `std::vector`
element access) are modelled with `Except`.  The external collaborators
(image decoding, the lmdb/leveldb engine) are parameters or event lists,
following the spec's component boundaries.
-/

/-- Model of C `atoi`: skip leading whitespace, optional sign, then the
longest digit run; no digits gives 0.  Used for the three label fields of
a manifest line (source line 88). -/
def readNatDigits : List Char → Nat → Nat
  | [], acc => acc
  | c :: cs, acc => if c.isDigit then readNatDigits cs (acc * 10 + (c.toNat - 48)) else acc

def isSpaceC (c : Char) : Bool :=
  c = ' ' || c = '\t' || c = '\n' || c = '\r' || c = '\x0b' || c = '\x0c'

def atoi (s : String) : Int :=
  match s.toList.dropWhile isSpaceC with
  | '-' :: rest => - (readNatDigits rest 0 : Int)
  | '+' :: rest => (readNatDigits rest 0 : Int)
  | rest => (readNatDigits rest 0 : Int)

/-- Field splitting as done by repeated `std::getline(ss, field, delim)`:
consecutive delimiters yield empty fields, and reading past the end of
the line leaves the field empty. -/
def splitAux (d : Char) : List Char → List Char → List String
  | [], acc => [String.mk acc.reverse]
  | c :: cs, acc =>
    if c = d then String.mk acc.reverse :: splitAux d cs []
    else splitAux d cs (c :: acc)

def splitOnChar (s : String) (d : Char) : List String := splitAux d s.toList []

/-- One manifest line (source lines 79-88): four fields split on a single
space (`std::getline` with delimiter `' '`; a missing field is left as the
empty string).  The parser pushes `(fileloc, 0)` onto `lines` and
`(atoi label1, atoi label2 * 4 + atoi label3)` onto `labels`. -/
def parseLine (line : String) : (String × Int) × (Int × Int) :=
  let fs := splitOnChar line ' '
  ((fs.getD 0 "", 0),
   (atoi (fs.getD 1 ""), atoi (fs.getD 2 "") * 4 + atoi (fs.getD 3 "")))

def parseManifest (m : List String) : List (String × Int) × List (Int × Int) :=
  ((m.map parseLine).map Prod.fst, (m.map parseLine).map Prod.snd)

/-- Source line 98 `shuffle(lines.begin(), lines.end())` permutes the
`lines` vector only (`labels` is left untouched).  The random permutation
drawn from caffe's RNG is modelled as an explicit index list `perm`;
for a genuine run `perm` is a permutation of `[0, ..., n-1]`. -/
def applyPerm (perm : List Nat) (l : List α) : List α := perm.filterMap l.get?

/-- Modelled from the spec: `caffe::format_int` (caffe/util/format.hpp is
not under src/), per spec section 4.5 the decimal rendering of the index
zero-padded on the left to the requested width. -/
def format_int (n w : Nat) : String :=
  let s := Nat.repr n
  String.mk (List.replicate (w - s.length) '0') ++ s

/-- Source lines 148 and 202: `caffe::format_int(line_id, 8) + "_" +
lines[line_id].first`, the key used in both stores. -/
def makeKey (i : Nat) (path : String) : String := format_int i 8 ++ "_" ++ path

/-- A `caffe::Datum` restricted to the fields this tool touches.  `data`
is a byte string, modelled as a list of byte values. -/
structure Datum where
  channels : Int
  height : Int
  width : Int
  data : List Nat
  label : Int
deriving DecidableEq

/-- Little-endian byte image of a 32-bit C `int` (two's complement), the
in-memory layout on the tool's x86-64/AArch64 targets. -/
def int32LE (x : Int) : List Nat :=
  let u := (x % (2 : Int) ^ 32).toNat
  [u % 256, u / 256 % 256, u / 256 / 256 % 256, u / 256 / 256 / 256 % 256]

/-- Source lines 183-188: the label datum.  `label_data` is the 8-byte
memory image of `int label_data[2] = {labels[i].first, labels[i].second}`;
`datum_label.set_data(label_data, 2)` copies exactly 2 bytes from its
start (the protobuf bytes setter copies `size` bytes), so the stored
`data` field is the first two bytes of the primary label, not the 8 bytes
of both labels. -/
def labelDatum (lab : Int × Int) : Datum :=
  { channels := 2, height := 1, width := 1,
    data := (int32LE lab.1 ++ int32LE lab.2).take 2,
    label := 0 }

/-- Shape-and-bytes result of the external image decode collaborator:
(channels, height, width, data bytes). -/
abbrev DecodedImg := Int × Int × Int × List Nat

/-- Modelled from the spec: `ReadImageToDatum` (caffe/util/io, not under
src/), spec sections 4.3 and 3: calls the external decode collaborator
and, on success, fills a datum whose `label` field is exactly the label
argument passed in; on failure returns a skip signal (`none`).  The
grayscale/resize options are folded into the external `decode`
collaborator, which is out of scope per spec section 1. -/
def readImageToDatum (decode : String → String → Option DecodedImg)
    (path : String) (label : Int) (enc : String) : Option Datum :=
  (decode path enc).map fun t =>
    { channels := t.1, height := t.2.1, width := t.2.2.1, data := t.2.2.2, label := label }

/-- Last index of character `c`, scanning a char list that started at
index `i`; models `std::string::rfind`. -/
def rfindAux : List Char → Char → Nat → Option Nat
  | [], _, _ => none
  | x :: xs, c, i =>
    match rfindAux xs c (i + 1) with
    | some j => some j
    | none => if x = c then some i else none

def strRfind (s : String) (c : Char) : Option Nat := rfindAux s.toList c 0

def substrErrMsg : String := "terminate: uncaught std::out_of_range from basic_string::substr"

/-- `std::string::substr(pos)`: throws `std::out_of_range` when
`pos > size()`.  `none` stands for `npos = SIZE_MAX`, which always exceeds
the length. -/
def cppSubstrE (s : String) (pos : Option Nat) : Except String String :=
  match pos with
  | some p => if p ≤ s.toList.length then Except.ok (String.mk (s.toList.drop p)) else Except.error substrErrMsg
  | none => Except.error substrErrMsg

def toLowerStr (s : String) : String := String.mk (s.toList.map Char.toLower)

/-- Source lines 124-131: when `--encoded` is on and no type is given,
guess from the file name: `p = fn.rfind('.')`; when `p == npos` a warning
is logged and then `fn.substr(p)` is still evaluated, which throws
`std::out_of_range` (uncaught, so the process dies); otherwise the
extension including the dot is taken and lower-cased. -/
def guessEncoding (fn : String) : Except String String :=
  match cppSubstrE fn (strRfind fn '.') with
  | Except.ok e => Except.ok (toLowerStr e)
  | Except.error m => Except.error m

/-- State of one store's transaction batching (source lines 155-166 and
209-220): `count` rows written so far, `pending` puts buffered in the
currently open transaction, `commits` the sizes of the commits the
backend has received, in order. -/
structure BatchSt where
  count : Nat
  pending : Nat
  commits : List Nat
deriving DecidableEq

/-- State of one store-writing pass: the `data_size` /
`data_size_initialized` pair of the size checker, the batcher state and
the sequence of puts issued so far. -/
structure PassSt where
  dataSize : Int
  sizeInit : Bool
  batch : BatchSt
  puts : List (String × Datum)
deriving DecidableEq

def sizeErrMsg : String := "Incorrect data field size"

/-- Source lines 137-146 (and identically 191-200): when `--check_size`
is on, the first written record initializes
`data_size = channels*height*width`; every later record's `data.size()`
must equal it, a mismatch being a fatal `CHECK_EQ`. -/
def sizeCheck (cs : Bool) (d : Datum) (s : PassSt) : Except String PassSt :=
  if cs then
    if s.sizeInit = false then
      Except.ok { s with dataSize := d.channels * d.height * d.width, sizeInit := true }
    else if (d.data.length : Int) = s.dataSize then Except.ok s
    else Except.error sizeErrMsg
  else Except.ok s

/-- Source lines 155-160: `if (++count % 1000 == 0) { txn->Commit();
txn.reset(db->NewTransaction()); }` — the commit carries the puts
buffered since the previous commit, and a fresh empty transaction is
opened. -/
def putStep (b : BatchSt) : BatchSt :=
  if (b.count + 1) % 1000 = 0 then
    { count := b.count + 1, pending := 0, commits := b.commits ++ [b.pending + 1] }
  else
    { count := b.count + 1, pending := b.pending + 1, commits := b.commits }

/-- One put: the key-value pair goes to the open transaction and the
batcher advances. -/
def putRow (i : Nat) (path : String) (d : Datum) (s : PassSt) : PassSt :=
  { s with puts := s.puts ++ [(makeKey i path, d)], batch := putStep s.batch }

/-- Source lines 163-166 (and 217-220): after the loop, `if (count % 1000
!= 0) txn->Commit();` — the final partial batch is committed only when
non-empty. -/
def finishPass (s : PassSt) : PassSt :=
  if s.batch.count % 1000 ≠ 0 then
    { s with batch := { count := s.batch.count, pending := 0,
                        commits := s.batch.commits ++ [s.batch.pending] } }
  else s

def initPassSt : PassSt :=
  { dataSize := 0, sizeInit := false,
    batch := { count := 0, pending := 0, commits := [] }, puts := [] }

/-- The common shape of the two store-writing loops (source lines 121-161
and 181-215).  Row `i` supplies the path used in the key and either a
fatal error (modelling an abort raised while producing the row), a skip
(`ok none`, the `if (status == false) continue;` of line 136), or a datum
to size-check and put. -/
def passGo (cs : Bool) :
    List (String × Except String (Option Datum)) → Nat → PassSt → Except String PassSt
  | [], _, s => Except.ok s
  | r :: rest, i, s =>
    match r.2 with
    | Except.error e => Except.error e
    | Except.ok none => passGo cs rest (i + 1) s
    | Except.ok (some d) =>
      match sizeCheck cs d s with
      | Except.error e => Except.error e
      | Except.ok s1 => passGo cs rest (i + 1) (putRow i r.1 d s1)

def runPass (cs : Bool) (rows : List (String × Except String (Option Datum))) :
    Except String PassSt :=
  (passGo cs rows 0 initPassSt).map finishPass

/-- Row production of the payload loop, source lines 122-136: optional
encoding-type inference (which can abort, see `guessEncoding`), then
`ReadImageToDatum(root_folder + lines[i].first, lines[i].second, ...)`. -/
def encChoice (encoded : Bool) (encType : String) (path : String) : Except String String :=
  if encoded && encType.isEmpty then guessEncoding path else Except.ok encType

def payloadRow (encoded : Bool) (encType : String)
    (decode : String → String → Option DecodedImg) (root : String)
    (e : String × Int) : String × Except String (Option Datum) :=
  (e.1,
    match encChoice encoded encType e.1 with
    | Except.error m => Except.error m
    | Except.ok enc => Except.ok (readImageToDatum decode (root ++ e.1) e.2 enc))

/-- Row production of the label loop, source lines 181-188: the label
datum is built unconditionally from `labels[line_id]`, keyed by
`lines[line_id].first`. -/
def labelRow (x : (String × Int) × (Int × Int)) : String × Except String (Option Datum) :=
  (x.1.1, Except.ok (some (labelDatum x.2)))

def payloadPass (cs encoded : Bool) (encType : String)
    (decode : String → String → Option DecodedImg) (root : String)
    (lines : List (String × Int)) : Except String PassSt :=
  runPass cs (lines.map (payloadRow encoded encType decode root))

def labelPass (cs : Bool) (lines : List (String × Int)) (labels : List (Int × Int)) :
    Except String PassSt :=
  runPass cs ((lines.zip labels).map labelRow)

structure Config where
  shuffle : Bool
  check_size : Bool
  encoded : Bool
  encode_type : String

def oobMsg : String := "undefined behavior: out-of-range vector element access"

/-- The whole `main` after flag parsing (source lines 74-221): parse the
manifest, log `lines[0]` and `labels[0]` (source lines 92-93 index the
vectors unconditionally — on an empty manifest this is an out-of-bounds
`std::vector::operator[]` access, modelled as a fatal error), optionally
shuffle the `lines` vector only, then run the payload pass followed by
the label pass. -/
def runConvert (cfg : Config) (perm : List Nat)
    (decode : String → String → Option DecodedImg) (root : String)
    (manifest : List String) : Except String (PassSt × PassSt) :=
  let lines := (parseManifest manifest).1
  let labels := (parseManifest manifest).2
  match lines.get? 0, labels.get? 0 with
  | some _, some _ =>
    let lines2 := if cfg.shuffle then applyPerm perm lines else lines
    match payloadPass cfg.check_size cfg.encoded cfg.encode_type decode root lines2 with
    | Except.error m => Except.error m
    | Except.ok pp =>
      match labelPass cfg.check_size lines2 labels with
      | Except.error m => Except.error m
      | Except.ok lp => Except.ok (pp, lp)
  | _, _ => Except.error oobMsg

def isOkE (r : Except String α) : Bool :=
  match r with
  | Except.ok _ => true
  | Except.error _ => false

def stOf (r : Except String PassSt) : PassSt :=
  match r with
  | Except.ok s => s
  | Except.error _ => initPassSt

def st2Of (r : Except String (PassSt × PassSt)) : PassSt × PassSt :=
  match r with
  | Except.ok s => s
  | Except.error _ => (initPassSt, initPassSt)

def rowOk (r : String × Except String (Option Datum)) : Bool :=
  match r.2 with
  | Except.ok _ => true
  | Except.error _ => false

def rowWritten (r : String × Except String (Option Datum)) : Bool :=
  match r.2 with
  | Except.ok (some _) => true
  | _ => false

/-- Closed form of the batcher state after `k` puts. -/
def batchOfCount (k : Nat) : BatchSt :=
  { count := k, pending := k % 1000, commits := List.replicate (k / 1000) 1000 }

/-- The commit sizes a store's backend receives over a run with `n`
written rows. -/
def commitSchedule (n : Nat) : List Nat :=
  List.replicate (n / 1000) 1000 ++ (if n % 1000 ≠ 0 then [n % 1000] else [])

/-! ## Helper lemmas -/

lemma replicate_snoc (n : Nat) (a : α) :
    List.replicate n a ++ [a] = List.replicate (n + 1) a := by
  induction n with
  | zero => rfl
  | succ n ih => simp only [List.replicate_succ, List.cons_append, ih]

lemma putStep_batchOfCount (k : Nat) : putStep (batchOfCount k) = batchOfCount (k + 1) := by
  by_cases h : (k + 1) % 1000 = 0
  · have h1 : k % 1000 + 1 = 1000 := by omega
    have h2 : (k + 1) / 1000 = k / 1000 + 1 := by omega
    simp [putStep, batchOfCount, h, h1, h2, ← replicate_snoc]
  · have h1 : k % 1000 + 1 = (k + 1) % 1000 := by omega
    have h2 : (k + 1) / 1000 = k / 1000 := by omega
    simp [putStep, batchOfCount, h, h1, h2]

lemma sizeCheck_ok_parts {cs : Bool} {d : Datum} {s s' : PassSt}
    (h : sizeCheck cs d s = Except.ok s') : s'.puts = s.puts ∧ s'.batch = s.batch := by
  unfold sizeCheck at h
  split at h
  · split at h
    · cases h; exact ⟨rfl, rfl⟩
    · split at h
      · cases h; exact ⟨rfl, rfl⟩
      · cases h
  · cases h; exact ⟨rfl, rfl⟩

lemma passGo_batch (cs : Bool) :
    ∀ (rows : List (String × Except String (Option Datum))) (i : Nat) (s s' : PassSt),
      s.batch = batchOfCount s.puts.length → passGo cs rows i s = Except.ok s' →
      s'.batch = batchOfCount s'.puts.length := by
  intro rows
  induction rows with
  | nil =>
    intro i s s' hb h
    simp only [passGo] at h
    cases h
    exact hb
  | cons r rest ih =>
    intro i s s' hb h
    obtain ⟨p, rr⟩ := r
    cases rr with
    | error e => simp [passGo] at h
    | ok od =>
      cases od with
      | none =>
        simp only [passGo] at h
        exact ih (i + 1) s s' hb h
      | some d =>
        simp only [passGo] at h
        cases hsc : sizeCheck cs d s with
        | error e => rw [hsc] at h; simp at h
        | ok s1 =>
          rw [hsc] at h
          simp only at h
          have hparts := sizeCheck_ok_parts hsc
          refine ih (i + 1) _ s' ?_ h
          simp [putRow, hparts.1, hparts.2, hb, putStep_batchOfCount]

lemma passGo_total_false :
    ∀ (rows : List (String × Except String (Option Datum))) (i : Nat) (s : PassSt),
      rows.all rowOk = true →
      ∃ s', passGo false rows i s = Except.ok s' ∧
        s'.puts.length = s.puts.length + rows.countP rowWritten := by
  intro rows
  induction rows with
  | nil => intro i s _; exact ⟨s, rfl, by simp⟩
  | cons r rest ih =>
    intro i s hall
    rw [List.all_cons, Bool.and_eq_true] at hall
    obtain ⟨p, rr⟩ := r
    cases rr with
    | error e => simp [rowOk] at hall
    | ok od =>
      cases od with
      | none =>
        obtain ⟨s', h1, h2⟩ := ih (i + 1) s hall.2
        refine ⟨s', by simp [passGo, h1], ?_⟩
        rw [h2]
        simp [List.countP_cons, rowWritten]
      | some d =>
        obtain ⟨s', h1, h2⟩ := ih (i + 1) (putRow i p d s) hall.2
        refine ⟨s', by simp [passGo, sizeCheck, h1], ?_⟩
        rw [h2]
        simp [putRow, List.countP_cons, rowWritten]
        omega

lemma passGo_puts_src (cs : Bool) :
    ∀ (rows : List (String × Except String (Option Datum))) (i : Nat) (s s' : PassSt),
      passGo cs rows i s = Except.ok s' → ∀ x ∈ s'.puts,
        x ∈ s.puts ∨ ∃ j, ∃ hj : j < rows.length,
          x.1 = makeKey (i + j) (rows.get ⟨j, hj⟩).1 ∧
          (rows.get ⟨j, hj⟩).2 = Except.ok (some x.2) := by
  intro rows
  induction rows with
  | nil =>
    intro i s s' h x hx
    simp only [passGo] at h
    cases h
    exact Or.inl hx
  | cons r rest ih =>
    intro i s s' h x hx
    obtain ⟨p, rr⟩ := r
    cases rr with
    | error e => simp [passGo] at h
    | ok od =>
      cases od with
      | none =>
        simp only [passGo] at h
        rcases ih (i + 1) s s' h x hx with hmem | ⟨j, hj, hk, hd⟩
        · exact Or.inl hmem
        · refine Or.inr ⟨j + 1, by simpa using Nat.succ_lt_succ hj, ?_, ?_⟩
          · simpa [Nat.add_comm, Nat.add_assoc, Nat.add_left_comm] using hk
          · simpa using hd
      | some d =>
        simp only [passGo] at h
        cases hsc : sizeCheck cs d s with
        | error e => rw [hsc] at h; simp at h
        | ok s1 =>
          rw [hsc] at h
          simp only at h
          have hparts := sizeCheck_ok_parts hsc
          rcases ih (i + 1) _ s' h x hx with hmem | ⟨j, hj, hk, hd⟩
          · rw [putRow] at hmem
            simp only [hparts.1] at hmem
            rcases List.mem_append.mp hmem with hmem | hx0
            · exact Or.inl hmem
            · have hx0 : x = (makeKey i p, d) := by simpa using hx0
              refine Or.inr ⟨0, by simp, ?_, ?_⟩
              · subst hx0; simp
              · subst hx0; simp
          · refine Or.inr ⟨j + 1, by simpa using Nat.succ_lt_succ hj, ?_, ?_⟩
            · simpa [Nat.add_comm, Nat.add_assoc, Nat.add_left_comm] using hk
            · simpa using hd

lemma passGo_skip_append (cs : Bool) :
    ∀ (rows : List (String × Except String (Option Datum))) (p : String) (i : Nat) (s : PassSt),
      passGo cs (rows ++ [(p, Except.ok none)]) i s = passGo cs rows i s := by
  intro rows
  induction rows with
  | nil => intro p i s; simp [passGo]
  | cons r rest ih =>
    intro p i s
    obtain ⟨q, rr⟩ := r
    cases rr with
    | error e => simp [passGo]
    | ok od =>
      cases od with
      | none => simp only [List.cons_append, passGo]; exact ih p (i + 1) s
      | some d =>
        simp only [List.cons_append, passGo]
        cases hsc : sizeCheck cs d s with
        | error e => rfl
        | ok s1 => simp only; exact ih p (i + 1) _

lemma finishPass_puts (s : PassSt) : (finishPass s).puts = s.puts := by
  unfold finishPass
  split <;> rfl

lemma finish_commits {s : PassSt} {n : Nat} (h : s.batch = batchOfCount n) :
    (finishPass s).batch.commits = commitSchedule n := by
  unfold finishPass commitSchedule
  by_cases hn : n % 1000 = 0 <;> simp [h, batchOfCount, hn]

lemma runPass_commits {cs : Bool} {rows : List (String × Except String (Option Datum))}
    {s' : PassSt} (h : runPass cs rows = Except.ok s') :
    s'.batch.commits = commitSchedule s'.puts.length := by
  unfold runPass at h
  cases hg : passGo cs rows 0 initPassSt with
  | error e => rw [hg] at h; simp [Except.map] at h
  | ok s0 =>
    rw [hg] at h
    simp only [Except.map] at h
    cases h
    have hb : s0.batch = batchOfCount s0.puts.length :=
      passGo_batch cs rows 0 initPassSt s0 (by simp [initPassSt, batchOfCount]) hg
    rw [finishPass_puts]
    exact finish_commits hb

lemma runPass_puts_src {cs : Bool} {rows : List (String × Except String (Option Datum))}
    {s' : PassSt} (h : runPass cs rows = Except.ok s') :
    ∀ x ∈ s'.puts, ∃ j, ∃ hj : j < rows.length,
      x.1 = makeKey j (rows.get ⟨j, hj⟩).1 ∧ (rows.get ⟨j, hj⟩).2 = Except.ok (some x.2) := by
  unfold runPass at h
  cases hg : passGo cs rows 0 initPassSt with
  | error e => rw [hg] at h; simp [Except.map] at h
  | ok s0 =>
    rw [hg] at h
    simp only [Except.map] at h
    cases h
    intro x hx
    rw [finishPass_puts] at hx
    rcases passGo_puts_src cs rows 0 initPassSt s0 hg x hx with hmem | ⟨j, hj, hk, hd⟩
    · simp [initPassSt] at hmem
    · exact ⟨j, hj, by simpa using hk, hd⟩

lemma runPass_total_false {rows : List (String × Except String (Option Datum))}
    (hall : rows.all rowOk = true) :
    ∃ s', runPass false rows = Except.ok s' ∧ s'.puts.length = rows.countP rowWritten := by
  obtain ⟨s0, h1, h2⟩ := passGo_total_false rows 0 initPassSt hall
  refine ⟨finishPass s0, ?_, ?_⟩
  · unfold runPass
    rw [h1]
    rfl
  · rw [finishPass_puts, h2]
    simp [initPassSt]

lemma parse_lines_snd (m : List String) : ∀ e ∈ (parseManifest m).1, e.2 = 0 := by
  intro e he
  simp only [parseManifest, List.map_map, List.mem_map] at he
  obtain ⟨l, _, he⟩ := he
  rw [← he]
  simp [parseLine, Function.comp]

lemma mem_applyPerm {perm : List Nat} {l : List α} {a : α} (h : a ∈ applyPerm perm l) :
    a ∈ l := by
  simp only [applyPerm, List.mem_filterMap] at h
  obtain ⟨j, _, hj⟩ := h
  exact List.get?_mem hj

/-! ## Test fixtures -/

def cfgPlain : Config := { shuffle := false, check_size := false, encoded := false, encode_type := "" }

def cfgShuffle : Config := { shuffle := true, check_size := false, encoded := false, encode_type := "" }

def manifestC1 : List String := ["a.jpg 1 0 0", "b.jpg 2 0 0"]

def decodeC1 : String → String → Option DecodedImg := fun p _ =>
  if p = "a.jpg" then some (1, 1, 1, [10])
  else if p = "b.jpg" then some (1, 1, 1, [20])
  else none

def runC1 : Except String (PassSt × PassSt) := runConvert cfgShuffle [1, 0] decodeC1 "" manifestC1

def manifestC2 : List String :=
  ["a.jpg 1 0 0", "b.jpg 1 0 0", "c.jpg 1 0 0", "d.jpg 1 0 0", "e.jpg 1 0 0"]

def decodeC2 : String → String → Option DecodedImg := fun p _ =>
  if p = "c.jpg" then none else some (1, 1, 1, [7])

def runC2 : Except String (PassSt × PassSt) := runConvert cfgPlain [] decodeC2 "" manifestC2

/-! ## Claims -/

/-- C1: the claim states the cross-store alignment invariant — payload and
label entries under the same key refer to the same manifest entry with its
own original labels, for any shuffle setting.  The code violates it when
shuffling is enabled: line 98 shuffles only the `lines` vector while
`labels` stays in manifest order, so after the swap permutation both stores
key row 0 as `00000000_b.jpg`, yet the label store's entry there carries
the labels of `a.jpg` (primary label 1) although `b.jpg`'s original
`LabelPair` has primary label 2. -/
theorem C1_shuffle_breaks_alignment :
    isOkE runC1 = true
    ∧ (st2Of runC1).1.puts.get? 0
        = some ("00000000_b.jpg",
            { channels := 1, height := 1, width := 1, data := [20], label := 0 })
    ∧ (st2Of runC1).2.puts.get? 0 = some ("00000000_b.jpg", labelDatum (1, 0))
    ∧ (parseManifest manifestC1).2.get? 1 = some (2, 0)
    ∧ labelDatum (1, 0) ≠ labelDatum (2, 0) := by
  refine ⟨?_, ?_, ?_, ?_, ?_⟩ <;> decide

/-- C2: the claim states the label store holds entries for exactly the
rows whose payload encode succeeded.  The code's label loop (lines
181-215) writes every manifest row unconditionally: with a 5-row manifest
whose row 3 (`c.jpg`) fails to decode, the payload store receives 4 puts
but the label store receives 5. -/
theorem C2_label_store_writes_all_rows :
    isOkE runC2 = true
    ∧ (st2Of runC2).1.puts.map Prod.fst
        = ["00000000_a.jpg", "00000001_b.jpg", "00000003_d.jpg", "00000004_e.jpg"]
    ∧ (st2Of runC2).2.puts.map Prod.fst
        = ["00000000_a.jpg", "00000001_b.jpg", "00000002_c.jpg",
           "00000003_d.jpg", "00000004_e.jpg"]
    ∧ (st2Of runC2).1.puts.length = 4
    ∧ (st2Of runC2).2.puts.length = 5 := by
  refine ⟨?_, ?_, ?_, ?_, ?_⟩ <;> decide

/-- C3: the claim states every label record has shape channels=2,
height=1, width=1, label=0 and a `data` field of exactly 8 bytes holding
the two 32-bit labels.  The shape and label fields match the code, but
`datum_label.set_data(label_data, 2)` (line 187) copies only 2 bytes, so
for the manifest line `a.jpg 1 2 3` (labels primary 1, composite
1*... = 2*4+3 = 11) the stored data is the 2 bytes `[1, 0]` — the low
bytes of the primary label — not 8 bytes, and the composite label is
absent. -/
theorem C3_label_record_data_is_two_bytes :
    (parseManifest ["a.jpg 1 2 3"]).2 = [(1, 11)]
    ∧ (labelDatum (1, 11)).channels = 2
    ∧ (labelDatum (1, 11)).height = 1
    ∧ (labelDatum (1, 11)).width = 1
    ∧ (labelDatum (1, 11)).label = 0
    ∧ (labelDatum (1, 11)).data = [1, 0]
    ∧ (labelDatum (1, 11)).data.length = 2
    ∧ (labelDatum (1, 11)).data.length ≠ 8 := by
  refine ⟨?_, ?_, ?_, ?_, ?_, ?_, ?_, ?_⟩ <;> decide

/-- C7: the claim states that with pre-encoding and an empty type,
`photo.PNG` infers `.png`, and a path with no dot logs a warning and
proceeds with an empty type.  The first part holds; but on a dotless path
the code (lines 127-130) still evaluates `fn.substr(p)` with `p == npos`,
which throws an uncaught `std::out_of_range` and kills the run instead of
proceeding, as the one-row payload pass over path `photo` shows. -/
theorem C7_dotless_path_aborts :
    guessEncoding "photo.PNG" = Except.ok ".png"
    ∧ guessEncoding "photo" = Except.error substrErrMsg
    ∧ payloadPass false true "" (fun _ _ => some (1, 1, 1, [1])) "" [("photo", 0)]
        = Except.error substrErrMsg := by
  refine ⟨?_, ?_, ?_⟩ <;> rfl

/-- C9: the claim states an empty manifest is tolerated and the run
completes normally with two empty stores.  The code instead evaluates
`lines[0]` and `labels[0]` unconditionally in its debug logging (lines
92-93), an out-of-bounds `std::vector::operator[]` access on an empty
manifest, so the run does not complete normally for any configuration. -/
theorem C9_empty_manifest_out_of_bounds :
    ∀ (cfg : Config) (perm : List Nat) (decode : String → String → Option DecodedImg)
      (root : String), runConvert cfg perm decode root [] = Except.error oobMsg := by
  intro cfg perm decode root
  rfl

/-- A small lemma: counting over a replicated list. -/
lemma countP_replicate (p : α → Bool) (n : Nat) (a : α) :
    List.countP p (List.replicate n a) = if p a then n else 0 := by
  induction n with
  | zero => simp
  | succ n ih =>
    rw [List.replicate_succ, List.countP_cons, ih]
    by_cases h : p a <;> simp [h]

/-- The sequence of datums actually written by a pass, in order: skipped
rows and (never-reached) aborting rows contribute nothing. -/
def writtenData (rows : List (String × Except String (Option Datum))) : List Datum :=
  rows.filterMap fun r =>
    match r.2 with
    | Except.ok (some d) => some d
    | _ => none

lemma writtenData_nil : writtenData [] = [] := rfl

lemma writtenData_cons_none (p : String) (rest : List (String × Except String (Option Datum))) :
    writtenData ((p, Except.ok none) :: rest) = writtenData rest := rfl

lemma writtenData_cons_some (p : String) (d : Datum)
    (rest : List (String × Except String (Option Datum))) :
    writtenData ((p, Except.ok (some d)) :: rest) = d :: writtenData rest := rfl

lemma sizeCheck_true_uninit {d : Datum} {s : PassSt} (h : s.sizeInit = false) :
    sizeCheck true d s
      = Except.ok { s with dataSize := d.channels * d.height * d.width, sizeInit := true } := by
  unfold sizeCheck
  rw [h]
  simp

lemma sizeCheck_true_inited {d : Datum} {s : PassSt} (h : s.sizeInit = true) :
    sizeCheck true d s
      = if (d.data.length : Int) = s.dataSize then Except.ok s else Except.error sizeErrMsg := by
  unfold sizeCheck
  rw [h]
  simp

lemma passGo_append (cs : Bool) :
    ∀ (a b : List (String × Except String (Option Datum))) (i : Nat) (s : PassSt),
      passGo cs (a ++ b) i s
        = match passGo cs a i s with
          | Except.error e => Except.error e
          | Except.ok s1 => passGo cs b (i + a.length) s1 := by
  intro a
  induction a with
  | nil => intro b i s; simp [passGo]
  | cons r rest ih =>
    intro b i s
    obtain ⟨p, rr⟩ := r
    cases rr with
    | error e => simp [passGo]
    | ok od =>
      cases od with
      | none =>
        simp only [List.cons_append, passGo, List.length_cons, List.append_eq]
        rw [ih]
        have h : i + 1 + rest.length = i + (rest.length + 1) := by omega
        rw [h]
      | some d =>
        simp only [List.cons_append, passGo, List.length_cons, List.append_eq]
        cases hsc : sizeCheck cs d s with
        | error e => rfl
        | ok s1 =>
          simp only
          rw [ih]
          have h : i + 1 + rest.length = i + (rest.length + 1) := by omega
          rw [h]

lemma passGo_inited_iff :
    ∀ (rows : List (String × Except String (Option Datum))) (i : Nat) (s : PassSt),
      rows.all rowOk = true → s.sizeInit = true →
      (passGo true rows i s = Except.error sizeErrMsg ↔
        ∃ e ∈ writtenData rows, (e.data.length : Int) ≠ s.dataSize) := by
  intro rows
  induction rows with
  | nil =>
    intro i s _ _
    simp [passGo, writtenData_nil]
  | cons r rest ih =>
    intro i s hall hinit
    rw [List.all_cons, Bool.and_eq_true] at hall
    obtain ⟨p, rr⟩ := r
    cases rr with
    | error e => simp [rowOk] at hall
    | ok od =>
      cases od with
      | none =>
        simp only [passGo, writtenData_cons_none]
        exact ih (i + 1) s hall.2 hinit
      | some d =>
        simp only [passGo, writtenData_cons_some]
        rw [sizeCheck_true_inited hinit]
        by_cases hlen : (d.data.length : Int) = s.dataSize
        · rw [if_pos hlen]
          simp only
          have hrec := ih (i + 1) (putRow i p d s) hall.2 hinit
          rw [hrec]
          constructor
          · rintro ⟨e, he, hne⟩
            exact ⟨e, List.mem_cons_of_mem d he, hne⟩
          · rintro ⟨e, he, hne⟩
            rcases List.mem_cons.mp he with rfl | he2
            · exact absurd hlen hne
            · exact ⟨e, he2, hne⟩
        · rw [if_neg hlen]
          constructor
          · intro _
            exact ⟨d, List.mem_cons_self d _, hlen⟩
          · intro _
            rfl

lemma passGo_inited_ok :
    ∀ (rows : List (String × Except String (Option Datum))) (i : Nat) (s : PassSt),
      rows.all rowOk = true → s.sizeInit = true →
      (∀ e ∈ writtenData rows, (e.data.length : Int) = s.dataSize) →
      ∃ s1, passGo true rows i s = Except.ok s1
        ∧ s1.sizeInit = true ∧ s1.dataSize = s.dataSize := by
  intro rows
  induction rows with
  | nil => intro i s _ hinit _; exact ⟨s, rfl, hinit, rfl⟩
  | cons r rest ih =>
    intro i s hall hinit hmatch
    rw [List.all_cons, Bool.and_eq_true] at hall
    obtain ⟨p, rr⟩ := r
    cases rr with
    | error e => simp [rowOk] at hall
    | ok od =>
      cases od with
      | none =>
        rw [writtenData_cons_none] at hmatch
        obtain ⟨s1, h1, h2, h3⟩ := ih (i + 1) s hall.2 hinit hmatch
        exact ⟨s1, by simp [passGo, h1], h2, h3⟩
      | some d =>
        rw [writtenData_cons_some] at hmatch
        have hd := hmatch d (List.mem_cons_self d _)
        obtain ⟨s1, h1, h2, h3⟩ := ih (i + 1) (putRow i p d s) hall.2 hinit
          (fun e he => hmatch e (List.mem_cons_of_mem d he))
        refine ⟨s1, ?_, h2, h3⟩
        simp only [passGo]
        rw [sizeCheck_true_inited hinit, if_pos hd]
        exact h1

lemma passGo_uninit_ok :
    ∀ (rows : List (String × Except String (Option Datum))) (i : Nat) (s : PassSt)
      (d0 : Datum) (w : List Datum),
      rows.all rowOk = true → s.sizeInit = false →
      writtenData rows = d0 :: w →
      (∀ e ∈ w, (e.data.length : Int) = d0.channels * d0.height * d0.width) →
      ∃ s1, passGo true rows i s = Except.ok s1
        ∧ s1.sizeInit = true ∧ s1.dataSize = d0.channels * d0.height * d0.width := by
  intro rows
  induction rows with
  | nil => intro i s d0 w _ _ hw; rw [writtenData_nil] at hw; cases hw
  | cons r rest ih =>
    intro i s d0 w hall hinit hw hmatch
    rw [List.all_cons, Bool.and_eq_true] at hall
    obtain ⟨p, rr⟩ := r
    cases rr with
    | error e => simp [rowOk] at hall
    | ok od =>
      cases od with
      | none =>
        rw [writtenData_cons_none] at hw
        obtain ⟨s1, h1, h2, h3⟩ := ih (i + 1) s d0 w hall.2 hinit hw hmatch
        exact ⟨s1, by simp [passGo, h1], h2, h3⟩
      | some d =>
        rw [writtenData_cons_some] at hw
        have hd0 : d = d0 := (List.cons.injEq d (writtenData rest) d0 w).mp hw |>.1
        have hww : writtenData rest = w := (List.cons.injEq d (writtenData rest) d0 w).mp hw |>.2
        subst hd0
        obtain ⟨s1, h1, h2, h3⟩ := passGo_inited_ok rest (i + 1)
          (putRow i p d { s with dataSize := d.channels * d.height * d.width, sizeInit := true })
          hall.2 rfl (by rw [hww]; exact fun e he => hmatch e he)
        refine ⟨s1, ?_, h2, h3⟩
        simp only [passGo]
        rw [sizeCheck_true_uninit hinit]
        exact h1

lemma passGo_uninit_iff :
    ∀ (rows : List (String × Except String (Option Datum))) (i : Nat) (s : PassSt),
      rows.all rowOk = true → s.sizeInit = false →
      (passGo true rows i s = Except.error sizeErrMsg ↔
        ∃ d0 w, writtenData rows = d0 :: w
          ∧ ∃ e ∈ w, (e.data.length : Int) ≠ d0.channels * d0.height * d0.width) := by
  intro rows
  induction rows with
  | nil =>
    intro i s _ _
    simp [passGo, writtenData_nil]
  | cons r rest ih =>
    intro i s hall hinit
    rw [List.all_cons, Bool.and_eq_true] at hall
    obtain ⟨p, rr⟩ := r
    cases rr with
    | error e => simp [rowOk] at hall
    | ok od =>
      cases od with
      | none =>
        simp only [passGo, writtenData_cons_none]
        exact ih (i + 1) s hall.2 hinit
      | some d =>
        simp only [passGo, writtenData_cons_some]
        rw [sizeCheck_true_uninit hinit]
        simp only
        have hrec := passGo_inited_iff rest (i + 1)
          (putRow i p d { s with dataSize := d.channels * d.height * d.width, sizeInit := true })
          hall.2 rfl
        rw [hrec]
        constructor
        · rintro ⟨e, he, hne⟩
          exact ⟨d, writtenData rest, rfl, e, he, hne⟩
        · rintro ⟨d0, w, hw, e, he, hne⟩
          have hd0 : d = d0 := (List.cons.injEq d (writtenData rest) d0 w).mp hw |>.1
          have hww : writtenData rest = w := (List.cons.injEq d (writtenData rest) d0 w).mp hw |>.2
          subst hd0
          rw [← hww] at he
          exact ⟨e, he, hne⟩

lemma runPass_error_iff {cs : Bool} {rows : List (String × Except String (Option Datum))}
    {m : String} : runPass cs rows = Except.error m ↔ passGo cs rows 0 initPassSt = Except.error m := by
  unfold runPass
  cases h : passGo cs rows 0 initPassSt <;> simp [h, Except.map]


def sampleDatum : Datum := { channels := 1, height := 1, width := 1, data := [5], label := 0 }

def rows2500 : List (String × Except String (Option Datum)) :=
  List.replicate 2500 ("x.jpg", Except.ok (some sampleDatum))

/-- C4: for each store, a commit is issued after exactly every 1000
accumulated puts, a fresh transaction follows each commit, and at end of
input a non-empty partial batch is committed exactly once while an empty
one yields no commit: any completed pass's commit sizes are exactly
`n / 1000` full batches of 1000 followed by the partial `n % 1000` batch
only when non-empty, every commit is non-empty, and a pass writing 2500
rows commits exactly 1000, 1000, 500 in that order. -/
theorem C4_commit_batching :
    (∀ (cs : Bool) (rows : List (String × Except String (Option Datum))) (s' : PassSt),
        runPass cs rows = Except.ok s' →
        s'.batch.commits = commitSchedule s'.puts.length
        ∧ ∀ c ∈ s'.batch.commits, 0 < c)
    ∧ (runPass false rows2500 = Except.ok (stOf (runPass false rows2500))
        ∧ (stOf (runPass false rows2500)).batch.commits = [1000, 1000, 500]) := by
  constructor
  · intro cs rows s' h
    have hc := runPass_commits h
    refine ⟨hc, ?_⟩
    intro c hcmem
    rw [hc] at hcmem
    unfold commitSchedule at hcmem
    rcases List.mem_append.mp hcmem with h1 | h2
    · have := List.eq_of_mem_replicate h1
      omega
    · by_cases hn : s'.puts.length % 1000 = 0
      · simp [hn] at h2
      · simp [hn] at h2
        omega
  · have hall : rows2500.all rowOk = true := by
      apply List.all_eq_true.mpr
      intro r hr
      have := List.eq_of_mem_replicate hr
      subst this
      rfl
    have hcount : rows2500.countP rowWritten = 2500 := by
      rw [rows2500, countP_replicate]
      rfl
    obtain ⟨s', h1, h2⟩ := runPass_total_false hall
    have hst : stOf (runPass false rows2500) = s' := by rw [h1]; rfl
    refine ⟨by rw [hst]; exact h1, ?_⟩
    rw [hst]
    calc s'.batch.commits = commitSchedule s'.puts.length := runPass_commits h1
      _ = commitSchedule 2500 := by rw [h2, hcount]
      _ = [1000, 1000, 500] := rfl

def c4Rows : List (String × Except String (Option Datum)) :=
  [("a", Except.ok (some sampleDatum)), ("b", Except.ok (some sampleDatum))]

def c4St : PassSt := stOf (runPass false c4Rows)

theorem C4_commit_batching_witness : c4St.batch.commits = commitSchedule c4St.puts.length :=
  (C4_commit_batching.1 false c4Rows c4St (by rfl)).1

/-- C5: with `--check_size` on, the first written record fixes
`expectedSize = channels*height*width`, and for every subsequent written
record — at any later position, with skipped rows interleaved and
anything at all after it — a divergence of its data byte length from
`expectedSize` is fatal for the entire run, and a skip-free checked pass
fails in exactly those cases; with `--check_size` off, records of
differing sizes are all stored and every skip-free pass completes. -/
theorem C5_check_size_fatal :
    (∀ (p1 : String) (d1 : Datum) (p2 : String) (d2 : Datum)
        (rest : List (String × Except String (Option Datum))),
        (d2.data.length : Int) ≠ d1.channels * d1.height * d1.width →
        runPass true ((p1, Except.ok (some d1)) :: (p2, Except.ok (some d2)) :: rest)
          = Except.error sizeErrMsg)
    ∧ (∀ (rows1 : List (String × Except String (Option Datum))) (p : String) (d : Datum)
        (rows2 : List (String × Except String (Option Datum))) (d0 : Datum) (w : List Datum),
        rows1.all rowOk = true → writtenData rows1 = d0 :: w →
        (∀ e ∈ w, (e.data.length : Int) = d0.channels * d0.height * d0.width) →
        (d.data.length : Int) ≠ d0.channels * d0.height * d0.width →
        runPass true (rows1 ++ (p, Except.ok (some d)) :: rows2) = Except.error sizeErrMsg)
    ∧ (∀ rows : List (String × Except String (Option Datum)), rows.all rowOk = true →
        (runPass true rows = Except.error sizeErrMsg ↔
          ∃ d0 w, writtenData rows = d0 :: w
            ∧ ∃ e ∈ w, (e.data.length : Int) ≠ d0.channels * d0.height * d0.width))
    ∧ (∀ rows : List (String × Except String (Option Datum)), rows.all rowOk = true →
        isOkE (runPass false rows) = true
        ∧ (stOf (runPass false rows)).puts.length = rows.countP rowWritten) := by
  refine ⟨?_, ?_, ?_, ?_⟩
  · intro p1 d1 p2 d2 rest h
    simp [runPass, passGo, sizeCheck, initPassSt, putRow, Except.map, h]
  · intro rows1 p d rows2 d0 w hall hw hmatch hdiv
    obtain ⟨s1, hs1, hinit, hds⟩ := passGo_uninit_ok rows1 0 initPassSt d0 w hall rfl hw hmatch
    have hstep : passGo true ((p, Except.ok (some d)) :: rows2) (0 + rows1.length) s1
        = Except.error sizeErrMsg := by
      simp only [passGo]
      rw [sizeCheck_true_inited hinit, hds, if_neg hdiv]
    unfold runPass
    rw [passGo_append, hs1]
    simp only
    rw [hstep]
    rfl
  · intro rows hall
    rw [runPass_error_iff]
    exact passGo_uninit_iff rows 0 initPassSt hall rfl
  · intro rows hall
    obtain ⟨s', h1, h2⟩ := runPass_total_false hall
    constructor
    · rw [h1]; rfl
    · rw [h1]
      exact h2

def d2C5 : Datum := { channels := 1, height := 1, width := 1, data := [5, 6], label := 0 }

def rows1C5 : List (String × Except String (Option Datum)) :=
  [("a", Except.ok (some sampleDatum)), ("b", Except.ok none), ("c", Except.ok (some sampleDatum))]

theorem C5_check_size_fatal_witness :
    runPass true [("a", Except.ok (some sampleDatum)), ("b", Except.ok (some d2C5))]
        = Except.error sizeErrMsg
    ∧ runPass true (rows1C5 ++ ("d", Except.ok (some d2C5)) :: [("z", Except.error "junk")])
        = Except.error sizeErrMsg
    ∧ runPass true [("a", Except.ok (some sampleDatum)), ("b", Except.ok (some d2C5))]
        = Except.error sizeErrMsg
    ∧ isOkE (runPass false [("a", Except.ok (some sampleDatum)), ("b", Except.ok (some d2C5))])
        = true :=
  ⟨C5_check_size_fatal.1 "a" sampleDatum "b" d2C5 [] (by decide),
   C5_check_size_fatal.2.1 rows1C5 "d" d2C5 [("z", Except.error "junk")] sampleDatum
     [sampleDatum] (by decide) (by decide) (by decide) (by decide),
   (C5_check_size_fatal.2.2.1
       [("a", Except.ok (some sampleDatum)), ("b", Except.ok (some d2C5))] (by decide)).mpr
     ⟨sampleDatum, [d2C5], by decide, d2C5, by decide, by decide⟩,
   (C5_check_size_fatal.2.2.2
       [("a", Except.ok (some sampleDatum)), ("b", Except.ok (some d2C5))] (by decide)).1⟩

def rowsC6 : List (String × Except String (Option Datum)) :=
  [("a", Except.ok (some sampleDatum)), ("b", Except.ok none), ("c", Except.ok (some sampleDatum))]

/-- C6: a payload-encode failure (`ReadImageToDatum` returning false,
line 136 `continue`) excludes exactly that row: appending a skipped row to
any pass changes nothing at all (no put, no key, no count advance, no
commit, no error), and in a three-row pass whose middle row is skipped the
two other rows are still written, under their original indices, with the
written-row count at 2. -/
theorem C6_skip_row_excluded_only :
    (∀ (cs : Bool) (rows : List (String × Except String (Option Datum))) (p : String),
        runPass cs (rows ++ [(p, Except.ok none)]) = runPass cs rows)
    ∧ (stOf (runPass false rowsC6)).puts.map Prod.fst = ["00000000_a", "00000002_c"]
    ∧ (stOf (runPass false rowsC6)).batch.count = 2
    ∧ isOkE (runPass false rowsC6) = true := by
  refine ⟨?_, by decide, by decide, by decide⟩
  intro cs rows p
  unfold runPass
  rw [passGo_skip_append]

/-- C8: every written row's key is its position in the sequence actually
used for writing, zero-padded to 8 digits, then `"_"` and that row's
path; position 5 with `img5.jpg` gives `00000005_img5.jpg`; and the
payload and label loops derive keys identically from the same path
sequence. -/
theorem C8_key_generation :
    makeKey 5 "img5.jpg" = "00000005_img5.jpg"
    ∧ (∀ (cs : Bool) (rows : List (String × Except String (Option Datum))) (s' : PassSt),
        runPass cs rows = Except.ok s' → ∀ x ∈ s'.puts,
          ∃ j, ∃ hj : j < rows.length,
            x.1 = makeKey j (rows.get ⟨j, hj⟩).1
            ∧ (rows.get ⟨j, hj⟩).2 = Except.ok (some x.2))
    ∧ (∀ (encoded : Bool) (encType : String) (decode : String → String → Option DecodedImg)
        (root : String) (lines : List (String × Int)) (labels : List (Int × Int)),
        lines.length = labels.length →
        ((lines.zip labels).map labelRow).map Prod.fst
          = (lines.map (payloadRow encoded encType decode root)).map Prod.fst) := by
  refine ⟨by decide, ?_, ?_⟩
  · intro cs rows s' h
    exact runPass_puts_src h
  · intro enc et dec root lines labels hlen
    have h2 : (lines.map (payloadRow enc et dec root)).map Prod.fst = lines.map Prod.fst := by
      simp [payloadRow]
    rw [h2]
    clear h2
    induction lines generalizing labels with
    | nil => simp
    | cons a l ih =>
      cases labels with
      | nil => simp at hlen
      | cons b lb =>
        simp only [List.zip_cons_cons, List.map_cons, labelRow]
        rw [ih lb (by simpa using hlen)]

theorem C8_key_generation_witness :
    (([("a.jpg", (0 : Int))].zip [((1 : Int), (0 : Int))]).map labelRow).map Prod.fst
      = ([("a.jpg", (0 : Int))].map (payloadRow false "" (fun _ _ => none) "")).map Prod.fst :=
  C8_key_generation.2.2 false "" (fun _ _ => none) "" [("a.jpg", 0)] [(1, 0)] rfl

lemma payloadPass_labels_zero {cs encoded : Bool} {encType root : String}
    {decode : String → String → Option DecodedImg} {lines : List (String × Int)} {s' : PassSt}
    (h : payloadPass cs encoded encType decode root lines = Except.ok s')
    (hl : ∀ e ∈ lines, e.2 = 0) : ∀ x ∈ s'.puts, x.2.label = 0 := by
  intro x hx
  obtain ⟨j, hj, _, hd⟩ := runPass_puts_src h x hx
  rw [List.length_map] at hj
  rw [List.get_eq_getElem, List.getElem_map] at hd
  cases henc : encChoice encoded encType (lines[j]).1 with
  | error m => simp [payloadRow, henc] at hd
  | ok enc =>
    simp only [payloadRow, henc, Except.ok.injEq] at hd
    rw [readImageToDatum] at hd
    rcases Option.map_eq_some'.mp hd with ⟨t, _, ht⟩
    have : x.2.label = (lines[j]).2 := by rw [← ht]
    rw [this]
    exact hl _ (List.getElem_mem hj)

/-- C10: the parser stores 0 as every entry's single-label value (line 87)
and that constant is what `ReadImageToDatum` receives (line 134), so every
record written to the payload store has label field 0 regardless of the
numeric labels in the manifest, for any configuration and run. -/
theorem C10_payload_label_always_zero :
    ∀ (cfg : Config) (perm : List Nat) (decode : String → String → Option DecodedImg)
      (root : String) (manifest : List String) (st : PassSt × PassSt),
      runConvert cfg perm decode root manifest = Except.ok st →
      ∀ x ∈ st.1.puts, x.2.label = 0 := by
  intro cfg perm decode root manifest st h x hx
  simp only [runConvert] at h
  cases hg1 : (parseManifest manifest).1.get? 0 with
  | none =>
    rw [hg1] at h
    cases hg2 : (parseManifest manifest).2.get? 0 <;> rw [hg2] at h <;> simp at h
  | some a =>
    rw [hg1] at h
    cases hg2 : (parseManifest manifest).2.get? 0 with
    | none => rw [hg2] at h; simp at h
    | some b =>
      rw [hg2] at h
      simp only at h
      cases hpp : payloadPass cfg.check_size cfg.encoded cfg.encode_type decode root
          (if cfg.shuffle then applyPerm perm (parseManifest manifest).1
           else (parseManifest manifest).1) with
      | error m => rw [hpp] at h; simp at h
      | ok pp =>
        rw [hpp] at h
        simp only at h
        cases hlp : labelPass cfg.check_size
            (if cfg.shuffle then applyPerm perm (parseManifest manifest).1
             else (parseManifest manifest).1) (parseManifest manifest).2 with
        | error m => rw [hlp] at h; simp at h
        | ok lp =>
          rw [hlp] at h
          simp only [Except.ok.injEq] at h
          have hl : ∀ e ∈ (if cfg.shuffle then applyPerm perm (parseManifest manifest).1
              else (parseManifest manifest).1), e.2 = 0 := by
            intro e he
            by_cases hs : cfg.shuffle
            · rw [if_pos hs] at he
              exact parse_lines_snd manifest e (mem_applyPerm he)
            · rw [if_neg hs] at he
              exact parse_lines_snd manifest e he
          have := payloadPass_labels_zero hpp hl
          rw [← h] at hx
          exact this x hx

def manifestC10 : List String := ["a.jpg 1 2 3"]

def decodeC10 : String → String → Option DecodedImg := fun _ _ => some (3, 2, 2, [9])

def runC10 : Except String (PassSt × PassSt) := runConvert cfgPlain [] decodeC10 "" manifestC10

def dummyPut : String × Datum := ("", labelDatum (0, 0))

theorem C10_payload_label_always_zero_witness :
    ((st2Of runC10).1.puts.getD 0 dummyPut).2.label = 0 :=
  C10_payload_label_always_zero cfgPlain [] decodeC10 "" manifestC10 (st2Of runC10)
    (by rfl) _ (by decide)
